import Mathlib

/-!
Verification of the cache-aside read path, response shaping, and cluster
supervision of the scalable-api repository.

The TypeScript sources are shallowly embedded:
* the `User` record and its `JSON.stringify` / `JSON.parse` round trip
  (`stringifyUser`, `parseUser`);
* the `/user` route handlers of the basic cached service (`src/index.ts`),
  the optimized service (the unnamed optimized source file) and the
  clustered service, as pure functions over the observable outcomes of the
  awaited Redis and loader promises (`basicUserHandler`,
  `optimizedUserHandler`, `clusteredUserHandler`);
* the Redis store for the single key `user:1` with absolute expiry
  (`Store`, `storeRead`, `runGet`);
* the Node event-loop interleaving of several concurrent `/user` requests
  (`cstep`, `crun`), each request advancing between its `await` points;
* the cluster primary's `exit`-event handler (`onExit`, `exitStep`).
-/

namespace ScalableApi

/-- The `User` record of `interface User { id: number; name: string }`.
The services only ever produce integral ids, so `id` is modelled as `Int`. -/
structure User where
  id : Int
  name : String
  deriving Repr, DecidableEq

/-- JSON values as produced by the services: strings, integral numbers and
objects (field lists in emission order). -/
inductive Json where
  | str (s : String)
  | int (n : Int)
  | obj (fields : List (String × Json))

/-- The character for a single decimal digit. -/
def digitChar (d : Nat) : Char :=
  if d < 10 then Char.ofNat (48 + d) else '*'

/-- The decimal digit denoted by a character, if any. -/
def charDigit (c : Char) : Option Nat :=
  if 48 ≤ c.toNat ∧ c.toNat ≤ 57 then some (c.toNat - 48) else none

/-- Least-significant-first decimal digits of `n`, with explicit fuel so the
definition is structurally recursive (`fuel ≥ n` yields all digits). -/
def decDigitsRev : Nat → Nat → List Nat
  | _, 0 => []
  | 0, _ + 1 => []
  | fuel + 1, n + 1 => ((n + 1) % 10) :: decDigitsRev fuel ((n + 1) / 10)

/-- Decimal character rendering of a natural number, most significant first,
as `JSON.stringify` renders a non-negative integral number. -/
def natToChars (n : Nat) : List Char :=
  if n = 0 then ['0'] else ((decDigitsRev n n).reverse).map digitChar

/-- Decimal character rendering of an integer, as `JSON.stringify` renders an
integral JavaScript number. -/
def intToChars (i : Int) : List Char :=
  if i < 0 then '-' :: natToChars (-i).toNat else natToChars i.toNat

/-- `JSON.stringify` string escaping for the characters the services can emit:
`"` becomes `\"` and `\` becomes `\\`; characters at or above `U+0020` are
emitted verbatim (control characters, which `JSON.stringify` would
`\u`-escape, never occur in the services' payloads). -/
def escChar (c : Char) : List Char :=
  if c = '"' then ['\\', '"']
  else if c = '\\' then ['\\', '\\']
  else [c]

/-- Escape a whole character sequence. -/
def escChars (s : List Char) : List Char :=
  List.flatten (s.map escChar)

/-- Literal opening of the serialized record: `{"id":`. -/
def idLit : List Char := ['\x7b', '"', 'i', 'd', '"', ':']

/-- Literal middle of the serialized record: `,"name":"`. -/
def nameLit : List Char := [',', '"', 'n', 'a', 'm', 'e', '"', ':', '"']

/-- Character sequence of `JSON.stringify({id, name})`:
`{"id":<id>,"name":"<escaped name>"}`. -/
def stringifyUserChars (u : User) : List Char :=
  idLit ++ intToChars u.id ++ nameLit ++ escChars u.name.data ++ ['"', '\x7d']

/-- `JSON.stringify(data)` for a `User` value, as written to Redis by
`redisClient.set(cacheKey, JSON.stringify(data), ...)`. -/
def stringifyUser (u : User) : String :=
  ⟨stringifyUserChars u⟩

/-- Drop an expected literal character sequence, failing on mismatch. -/
def dropLit : List Char → List Char → Option (List Char)
  | [], cs => some cs
  | _ :: _, [] => none
  | l :: ls, c :: cs => if c = l then dropLit ls cs else none

/-- Take the maximal run of decimal digit characters. -/
def takeDigits : List Char → List Nat × List Char
  | [] => ([], [])
  | c :: cs =>
    match charDigit c with
    | some d =>
      let p := takeDigits cs
      (d :: p.1, p.2)
    | none => ([], c :: cs)

/-- Value of a most-significant-first decimal digit list. -/
def decVal (ds : List Nat) : Nat :=
  ds.foldl (fun a d => 10 * a + d) 0

/-- Value of a least-significant-first decimal digit list. -/
def decValRev : List Nat → Nat
  | [] => 0
  | d :: ds => d + 10 * decValRev ds

/-- Parse an optionally signed decimal integer (the number grammar
`JSON.stringify` emits for integral values). -/
def parseIntChars (cs : List Char) : Option (Int × List Char) :=
  match cs with
  | [] => none
  | c :: cs' =>
    if c = '-' then
      match takeDigits cs' with
      | ([], _) => none
      | (d :: ds, rest) => some (-((decVal (d :: ds) : Nat) : Int), rest)
    else
      match takeDigits (c :: cs') with
      | ([], _) => none
      | (d :: ds, rest) => some (((decVal (d :: ds) : Nat) : Int), rest)

/-- Undo a string escape introduced by `escChar`. -/
def unescChar (c : Char) : Char :=
  if c = '"' then '"' else if c = '\\' then '\\' else c

/-- Scanner for a JSON string body; the flag records that the previous
character was a backslash and the next character is an escape payload. -/
def takeStrAux : Bool → List Char → Option (List Char × List Char)
  | _, [] => none
  | true, e :: cs => (takeStrAux false cs).map (fun p => (unescChar e :: p.1, p.2))
  | false, c :: cs =>
    if c = '"' then some ([], cs)
    else if c = '\\' then takeStrAux true cs
    else (takeStrAux false cs).map (fun p => (c :: p.1, p.2))

/-- Consume a JSON string body up to its closing quote, undoing escapes;
returns the decoded characters and the remainder after the quote. -/
def takeStr (cs : List Char) : Option (List Char × List Char) :=
  takeStrAux false cs

/-- Parse the character sequence of a serialized `User` record. -/
def parseUserChars (cs : List Char) : Option User :=
  match dropLit idLit cs with
  | none => none
  | some cs1 =>
    match parseIntChars cs1 with
    | none => none
    | some (i, cs2) =>
      match dropLit nameLit cs2 with
      | none => none
      | some cs3 =>
        match takeStr cs3 with
        | none => none
        | some (nm, cs4) =>
          if cs4 = ['\x7d'] then some ⟨i, ⟨nm⟩⟩ else none

/-- `JSON.parse(cached)` for the strings the services store under `user:1`
(which are always `JSON.stringify` images of a `User` record). -/
def parseUser (s : String) : Option User :=
  parseUserChars s.data

/-- The list does not start with a decimal digit character. -/
def noDigitHead : List Char → Prop
  | [] => True
  | c :: _ => charDigit c = none

/-! ## The `/user` route handlers

Each handler is embedded as a pure function of the observable outcomes of its
three awaited promises, in program order: the Redis `get`, the `fakeDB()`
loader, and the Redis `set`.  A rejected promise makes the corresponding
`await` throw, which the surrounding `try`/`catch` turns into a
`500 Internal Server Error` response. -/

/-- Outcome of an awaited promise: resolved with a value, or rejected. -/
inductive PromiseResult (α : Type) where
  | ok (a : α)
  | err
  deriving Repr

/-- Field list of `res.json` for a `User` value (emission order of the record). -/
def userFields (u : User) : List (String × Json) :=
  [("id", Json.int u.id), ("name", Json.str u.name)]

/-- Body of `res.json(data)` for a plain `User` value. -/
def userJson (u : User) : Json :=
  Json.obj (userFields u)

/-- Body of `res.status(500).json({ error: 'Internal Server Error' })`. -/
def errorBody : Json :=
  Json.obj [("error", Json.str "Internal Server Error")]

/-- The `Cache-Control` header value set on hits: `public, max-age=60`. -/
def ccHeader : String := "public, max-age=60"

/-- An HTTP response: status code, JSON body, and the `Cache-Control` header
if one was set. -/
structure HttpResponse where
  status : Nat
  body : Json
  cacheControl : Option String

/-- Observable outcome of one `/user` handler invocation: the response, whether
`fakeDB()` (the origin loader) was invoked, and the successful
`redisClient.set` if one completed (serialized value and `EX` seconds). -/
structure HResult where
  resp : HttpResponse
  loaderInvoked : Bool
  written : Option (String × Nat)

/-- Field lookup in a JSON object body. -/
def Json.field (j : Json) (k : String) : Option Json :=
  match j with
  | .obj fs => fs.lookup k
  | _ => none

/-- Shared miss path of all three cached `/user` handlers:
`const data = await fakeDB(); await redisClient.set(cacheKey,
JSON.stringify(data), { EX: ttl }); res.json(<mkBody data>)`, with the
`try`/`catch` turning a rejected loader or `set` into a 500 response. -/
def missFlow (mkBody : User → Json) (ttl : Nat) (loadRes : PromiseResult User)
    (writeRes : PromiseResult Unit) : HResult :=
  match loadRes with
  | .err => ⟨⟨500, errorBody, none⟩, true, none⟩
  | .ok data =>
    match writeRes with
    | .err => ⟨⟨500, errorBody, none⟩, true, none⟩
    | .ok _ => ⟨⟨200, mkBody data, none⟩, true, some (stringifyUser data, ttl)⟩

/-- The `/user` handler of the basic cached service (`src/index.ts`, lines
41–59): on a truthy `cached` string it sets `Cache-Control` and returns
`JSON.parse(cached)`; otherwise it loads from `fakeDB`, caches with `EX: 60`
and returns the record without a `source` field.  A `JSON.parse` throw lands
in the `catch` after the header was already set. -/
def basicUserHandler (readRes : PromiseResult (Option String))
    (loadRes : PromiseResult User) (writeRes : PromiseResult Unit) : HResult :=
  match readRes with
  | .err => ⟨⟨500, errorBody, none⟩, false, none⟩
  | .ok cached =>
    match cached with
    | some s =>
      if s = "" then missFlow userJson 60 loadRes writeRes
      else
        match parseUser s with
        | some u => ⟨⟨200, userJson u, some ccHeader⟩, false, none⟩
        | none => ⟨⟨500, errorBody, some ccHeader⟩, false, none⟩
    | none => missFlow userJson 60 loadRes writeRes

/-- Hit body of the optimized service: `{ ...JSON.parse(cached), source: 'cache' }`. -/
def optimizedHitBody (u : User) : Json :=
  Json.obj (userFields u ++ [("source", Json.str "cache")])

/-- Miss body of the optimized service: `{ ...data, source: 'database' }`. -/
def optimizedMissBody (u : User) : Json :=
  Json.obj (userFields u ++ [("source", Json.str "database")])

/-- The `/user` handler of the optimized cached service (the unnamed optimized
source file, lines 71–100): like the basic one but with `source: 'cache'` /
`source: 'database'` annotations and `EX: config.cacheExpiry`. -/
def optimizedUserHandler (readRes : PromiseResult (Option String))
    (loadRes : PromiseResult User) (writeRes : PromiseResult Unit)
    (cacheExpiry : Nat) : HResult :=
  match readRes with
  | .err => ⟨⟨500, errorBody, none⟩, false, none⟩
  | .ok cached =>
    match cached with
    | some s =>
      if s = "" then missFlow optimizedMissBody cacheExpiry loadRes writeRes
      else
        match parseUser s with
        | some u => ⟨⟨200, optimizedHitBody u, some ccHeader⟩, false, none⟩
        | none => ⟨⟨500, errorBody, some ccHeader⟩, false, none⟩
    | none => missFlow optimizedMissBody cacheExpiry loadRes writeRes

/-- Hit body of a clustered worker: `{ ...cachedData, worker: process.pid,
source: 'cache' }`. -/
def clusteredHitBody (pid : Int) (u : User) : Json :=
  Json.obj (userFields u ++ [("worker", Json.int pid), ("source", Json.str "cache")])

/-- Miss body of a clustered worker: `{ ...data, worker: process.pid,
source: 'database' }`. -/
def clusteredMissBody (pid : Int) (u : User) : Json :=
  Json.obj (userFields u ++ [("worker", Json.int pid), ("source", Json.str "database")])

/-- The `/user` handler of a clustered worker (`src/index.ts`, lines 226–252):
like the optimized one but the bodies also carry the worker pid and the `set`
uses `EX: 60`. -/
def clusteredUserHandler (pid : Int) (readRes : PromiseResult (Option String))
    (loadRes : PromiseResult User) (writeRes : PromiseResult Unit) : HResult :=
  match readRes with
  | .err => ⟨⟨500, errorBody, none⟩, false, none⟩
  | .ok cached =>
    match cached with
    | some s =>
      if s = "" then missFlow (clusteredMissBody pid) 60 loadRes writeRes
      else
        match parseUser s with
        | some u => ⟨⟨200, clusteredHitBody pid u, some ccHeader⟩, false, none⟩
        | none => ⟨⟨500, errorBody, some ccHeader⟩, false, none⟩
    | none => missFlow (clusteredMissBody pid) 60 loadRes writeRes

/-! ## The Redis store for key `user:1`

The services use a single cache key, so the store is the state of that one
key: the stored string and its absolute expiry instant.  A value set with
`EX: ttl` at instant `t` is readable strictly before `t + ttl` and absent
from then on. -/

/-- State of the Redis key `user:1`. -/
structure Store where
  entry : Option (String × Nat)

/-- The empty store (key absent). -/
def Store.empty : Store := ⟨none⟩

/-- `redisClient.get('user:1')` at instant `now`: the stored string while it
is unexpired, `null` (here `none`) otherwise. -/
def storeRead (st : Store) (now : Nat) : Option String :=
  match st.entry with
  | some (v, exp) => if now < exp then some v else none
  | none => none

/-- Apply a successful `redisClient.set(key, v, { EX: ex })` issued at
instant `now`. -/
def applyWrite (st : Store) (now : Nat) : Option (String × Nat) → Store
  | some (v, ex) => ⟨some (v, now + ex)⟩
  | none => st

/-- One `/user` request against the optimized service with a reachable Redis:
the handler runs at instant `now` with the store's actual read result, and its
successful `set` (if any) is applied to the store. -/
def runGet (st : Store) (now : Nat) (loadRes : PromiseResult User) (ttl : Nat) :
    HResult × Store :=
  let r := optimizedUserHandler (.ok (storeRead st now)) loadRes (.ok ()) ttl
  (r, applyWrite st now r.written)

/-! ## Concurrent `/user` requests on one worker's event loop

Several in-flight requests to the same worker interleave at their `await`
points.  Each request sits at one of three phases: about to run its Redis
`get` (`ready`), holding a loaded value and about to run its `set` and
respond (`loaded`), or finished (`done`).  A scheduler step picks a request
and advances it past its next `await`; the store and the count of `fakeDB`
invocations are the shared state.  This embeds the handler code as written:
nothing coordinates concurrent misses, each miss runs its own load. -/

/-- Final outcome of one concurrent request. -/
inductive ROutcome where
  | fromCache (u : User)
  | fromDb (u : User)
  | errResp

/-- Phase of one in-flight request, between `await` points. -/
inductive RPhase where
  | ready
  | loaded (u : User)
  | done (o : ROutcome)

/-- Shared state of one worker: the Redis key, the number of `fakeDB`
invocations so far, and each request's phase. -/
structure CState where
  store : Store
  calls : Nat
  reqs : List RPhase

/-- Initial state: `n` concurrent requests just arrived, store as given. -/
def cinit (st : Store) (n : Nat) : CState :=
  ⟨st, 0, List.replicate n .ready⟩

/-- Advance request `i` past its next `await` point.  A `ready` request
observes the Redis `get`: a truthy unexpired string is a hit (parsed and
answered immediately), otherwise `fakeDB()` is invoked — unconditionally,
since the code has no in-flight table to consult.  A `loaded` request
performs its `set` and responds.  Steps on finished requests or invalid
indices do nothing. -/
def cstep (now ttl : Nat) (loadRes : PromiseResult User) (s : CState) (i : Nat) : CState :=
  match s.reqs[i]? with
  | some .ready =>
    let startLoad :=
      match loadRes with
      | .ok u => { s with calls := s.calls + 1, reqs := s.reqs.set i (.loaded u) }
      | .err => { s with calls := s.calls + 1, reqs := s.reqs.set i (.done .errResp) }
    match storeRead s.store now with
    | some cached =>
      if cached = "" then startLoad
      else
        match parseUser cached with
        | some u => { s with reqs := s.reqs.set i (.done (.fromCache u)) }
        | none => { s with reqs := s.reqs.set i (.done .errResp) }
    | none => startLoad
  | some (.loaded u) =>
    { s with store := ⟨some (stringifyUser u, now + ttl)⟩,
             reqs := s.reqs.set i (.done (.fromDb u)) }
  | _ => s

/-- Run a whole schedule of interleaved steps. -/
def crun (now ttl : Nat) (loadRes : PromiseResult User) (s : CState)
    (sched : List Nat) : CState :=
  sched.foldl (cstep now ttl loadRes) s

/-! ## Cluster primary supervision

`cluster.ts` (lines 16–37) and `index.ts` (lines 167–185): the primary forks
one worker per CPU and re-forks on every `exit` event. -/

/-- State of the cluster primary: pids of live workers and the next pid the
OS will hand out. -/
structure ClusterState where
  workers : List Nat
  nextPid : Nat

/-- `cluster.fork()`: one new worker joins the pool. -/
def forkWorker (s : ClusterState) : ClusterState :=
  ⟨s.workers ++ [s.nextPid], s.nextPid + 1⟩

/-- Body of `cluster.on('exit', (worker, code, signal) => ...)`: it logs the
death and calls `cluster.fork()` exactly once, using neither `code` nor
`signal` for anything but the log line. -/
def onExit (s : ClusterState) (deadPid : Nat) (code : Int) (signal : Option String) :
    ClusterState :=
  forkWorker s

/-- A worker `exit` event: the platform removes the dead worker from the
pool, then the primary's registered handler runs. -/
def exitStep (s : ClusterState) (deadPid : Nat) (code : Int) (signal : Option String) :
    ClusterState :=
  onExit ⟨s.workers.erase deadPid, s.nextPid⟩ deadPid code signal

/-! ## Invariant vocabulary for the concurrent model -/

/-- Whether a request is still before its cache read. -/
def isReadyB : RPhase → Bool
  | .ready => true
  | _ => false

/-- Whether a request has finished. -/
def isDoneB : RPhase → Bool
  | .done _ => true
  | _ => false

/-- Every value a request can carry equals the loader's value `L`: in a run
from an empty store the cache can only ever hold `L`'s serialization. -/
def goodPhase (L : User) : RPhase → Prop
  | .ready => True
  | .loaded u => u = L
  | .done (.fromCache u) => u = L
  | .done (.fromDb u) => u = L
  | .done .errResp => False

/-- Invariant of an interleaved run of `n` requests with loader value `L`,
started from the empty store at instant `now` with TTL `ttl`. -/
structure CInv (L : User) (now ttl n : Nat) (s : CState) : Prop where
  len : s.reqs.length = n
  bound : s.calls + s.reqs.countP isReadyB ≤ n
  zero : s.calls = 0 → s.store.entry = none ∧ ∀ r ∈ s.reqs, r = RPhase.ready
  store_ok : s.store.entry = none ∨ s.store.entry = some (stringifyUser L, now + ttl)
  phase_ok : ∀ r ∈ s.reqs, goodPhase L r

/-- Invariant of an interleaved run whose loader always fails, started from
the empty store: the store stays empty and every settled request errored. -/
def CFailInv (s : CState) : Prop :=
  s.store.entry = none ∧ ∀ r ∈ s.reqs, r = RPhase.ready ∨ r = RPhase.done .errResp

/-! ## Serialization round trip -/

theorem dropLit_append (l rest : List Char) : dropLit l (l ++ rest) = some rest := by
  induction l with
  | nil => rfl
  | cons c ls ih => simpa [dropLit] using ih

theorem charDigit_digitChar {d : Nat} (h : d < 10) : charDigit (digitChar d) = some d := by
  interval_cases d <;> decide

theorem decDigitsRev_lt {fuel n : Nat} : ∀ d ∈ decDigitsRev fuel n, d < 10 := by
  induction fuel generalizing n with
  | zero => cases n <;> simp [decDigitsRev]
  | succ fuel ih =>
    cases n with
    | zero => simp [decDigitsRev]
    | succ n =>
      intro d hd
      rcases (List.mem_cons).1 hd with h | h
      · exact h ▸ Nat.mod_lt _ (by norm_num)
      · exact ih _ h

theorem decValRev_decDigitsRev {fuel n : Nat} (h : n ≤ fuel) :
    decValRev (decDigitsRev fuel n) = n := by
  induction fuel generalizing n with
  | zero =>
    have h0 : n = 0 := Nat.le_zero.1 h
    subst h0
    rfl
  | succ fuel ih =>
    cases n with
    | zero => rfl
    | succ n =>
      have hdiv : (n + 1) / 10 ≤ fuel := by
        have := Nat.div_lt_self (Nat.succ_pos n) (by norm_num : 1 < 10)
        omega
      simp only [decDigitsRev, decValRev, ih hdiv]
      exact Nat.mod_add_div (n + 1) 10

theorem takeDigits_noDigitHead {rest : List Char} (h : noDigitHead rest) :
    takeDigits rest = ([], rest) := by
  cases rest with
  | nil => rfl
  | cons c cs =>
    have h' : charDigit c = none := h
    simp [takeDigits, h']

theorem takeDigits_append {ds : List Nat} (hds : ∀ d ∈ ds, d < 10) {rest : List Char}
    (h : noDigitHead rest) :
    takeDigits (ds.map digitChar ++ rest) = (ds, rest) := by
  induction ds with
  | nil =>
    simp only [List.map_nil, List.nil_append]
    exact takeDigits_noDigitHead h
  | cons d ds ih =>
    have hd : d < 10 := hds d (List.mem_cons_self d ds)
    have ih' := ih (fun e he => hds e (List.mem_cons_of_mem d he))
    simp [takeDigits, charDigit_digitChar hd, ih']

theorem decVal_reverse (ds : List Nat) (a : Nat) :
    List.foldl (fun a d => 10 * a + d) a ds.reverse = a * 10 ^ ds.length + decValRev ds := by
  induction ds generalizing a with
  | nil => simp [decValRev]
  | cons d ds ih =>
    simp only [List.reverse_cons, List.foldl_append, List.foldl_cons, List.foldl_nil,
      ih, decValRev, List.length_cons]
    ring

theorem parseNat_chars (n : Nat) {rest : List Char} (h : noDigitHead rest) :
    ∃ d ds, takeDigits (natToChars n ++ rest) = (d :: ds, rest) ∧ decVal (d :: ds) = n := by
  cases n with
  | zero =>
    refine ⟨0, [], ?_, rfl⟩
    have h0 : natToChars 0 = ['0'] := rfl
    have hc : charDigit '0' = some 0 := rfl
    rw [h0, List.cons_append, List.nil_append]
    simp [takeDigits, hc, takeDigits_noDigitHead h]
  | succ m =>
    set k := m + 1 with hk
    have hne : decDigitsRev k k = (k % 10) :: decDigitsRev m (k / 10) := by
      simp [hk, decDigitsRev]
    have hall : ∀ d ∈ (decDigitsRev k k).reverse, d < 10 := by
      intro d hd
      exact decDigitsRev_lt d (List.mem_reverse.1 hd)
    have htd :
        takeDigits (((decDigitsRev k k).reverse).map digitChar ++ rest)
          = ((decDigitsRev k k).reverse, rest) := takeDigits_append hall h
    have hne' : (decDigitsRev k k).reverse ≠ [] := by
      simp [hne]
    obtain ⟨d, ds, hds⟩ := List.exists_cons_of_ne_nil hne'
    refine ⟨d, ds, ?_, ?_⟩
    · have hnat : natToChars k = ((decDigitsRev k k).reverse).map digitChar := by
        simp [natToChars, hk]
      rw [hnat, htd, hds]
    · have hval : decVal ((decDigitsRev k k).reverse) = k := by
        have := decVal_reverse (decDigitsRev k k) 0
        simpa [decVal, decValRev_decDigitsRev (le_refl k)] using this
      rw [← hds, hval]

theorem natToChars_head (n : Nat) :
    ∃ d cs, natToChars n = digitChar d :: cs ∧ d < 10 := by
  cases n with
  | zero => exact ⟨0, [], by decide, by norm_num⟩
  | succ m =>
    have hne : decDigitsRev (m + 1) (m + 1) = ((m + 1) % 10) :: decDigitsRev m ((m + 1) / 10) := by
      simp [decDigitsRev]
    have hne' : (decDigitsRev (m + 1) (m + 1)).reverse ≠ [] := by simp [hne]
    obtain ⟨d, ds, hds⟩ := List.exists_cons_of_ne_nil hne'
    have hd : d < 10 := decDigitsRev_lt d (List.mem_reverse.1 (hds ▸ List.mem_cons_self d ds))
    exact ⟨d, ds.map digitChar, by simp [natToChars, hds], hd⟩

theorem parseIntChars_intToChars (i : Int) {rest : List Char} (h : noDigitHead rest) :
    parseIntChars (intToChars i ++ rest) = some (i, rest) := by
  by_cases hneg : i < 0
  · obtain ⟨d, ds, htd, hval⟩ := parseNat_chars (-i).toNat h
    have hid : intToChars i = '-' :: natToChars (-i).toNat := by
      simp [intToChars, hneg]
    have hcast : ((decVal (d :: ds) : Nat) : Int) = -i := by
      rw [hval, Int.toNat_of_nonneg (by omega)]
    rw [hid, List.cons_append]
    simp [parseIntChars, htd, hcast]
  · obtain ⟨e, cs, hcs, he⟩ := natToChars_head i.toNat
    obtain ⟨d, ds, htd, hval⟩ := parseNat_chars i.toNat h
    have hnd : digitChar e ≠ '-' := by
      intro hc
      have h1 : charDigit (digitChar e) = some e := charDigit_digitChar he
      rw [hc] at h1
      have h2 : charDigit '-' = none := rfl
      rw [h2] at h1
      cases h1
    have hid : intToChars i = natToChars i.toNat := by
      simp [intToChars, hneg]
    have hcast : ((decVal (d :: ds) : Nat) : Int) = i := by
      rw [hval, Int.toNat_of_nonneg (by omega)]
    rw [hcs, List.cons_append] at htd
    rw [hid, hcs, List.cons_append]
    simp [parseIntChars, if_neg hnd, htd, hcast]

theorem escChars_cons (c : Char) (cs : List Char) :
    escChars (c :: cs) = escChar c ++ escChars cs := by
  simp [escChars]

theorem takeStr_escChars (s rest : List Char) :
    takeStr (escChars s ++ '"' :: rest) = some (s, rest) := by
  induction s with
  | nil =>
    show takeStrAux false (escChars [] ++ '"' :: rest) = some ([], rest)
    simp [escChars, takeStrAux]
  | cons c cs ih =>
    rw [escChars_cons]
    by_cases h1 : c = '"'
    · subst h1
      show takeStrAux false ('\\' :: '"' :: (escChars cs ++ '"' :: rest)) = _
      simp only [takeStrAux, if_neg (by decide : ¬('\\' : Char) = '"'), if_pos rfl]
      rw [show takeStrAux false (escChars cs ++ '"' :: rest)
            = takeStr (escChars cs ++ '"' :: rest) from rfl, ih]
      rfl
    · by_cases h2 : c = '\\'
      · subst h2
        show takeStrAux false ('\\' :: '\\' :: (escChars cs ++ '"' :: rest)) = _
        simp only [takeStrAux, if_neg (by decide : ¬('\\' : Char) = '"'), if_pos rfl]
        rw [show takeStrAux false (escChars cs ++ '"' :: rest)
              = takeStr (escChars cs ++ '"' :: rest) from rfl, ih]
        rfl
      · have hesc : escChar c = [c] := by
          simp [escChar, h1, h2]
        rw [hesc]
        show takeStrAux false (c :: (escChars cs ++ '"' :: rest)) = _
        simp only [takeStrAux, if_neg h1, if_neg h2]
        rw [show takeStrAux false (escChars cs ++ '"' :: rest)
              = takeStr (escChars cs ++ '"' :: rest) from rfl, ih]
        rfl

theorem parseUserChars_stringifyUserChars (u : User) :
    parseUserChars (stringifyUserChars u) = some u := by
  obtain ⟨i, nm⟩ := u
  obtain ⟨nmdata⟩ := nm
  have hnd : noDigitHead (nameLit ++ escChars nmdata ++ ['"', '\x7d']) := by
    show charDigit ',' = none
    rfl
  simp only [stringifyUserChars]
  rw [show idLit ++ intToChars i ++ nameLit ++ escChars nmdata ++ ['"', '\x7d']
        = idLit ++ (intToChars i ++ (nameLit ++ escChars nmdata ++ ['"', '\x7d'])) by
      simp [List.append_assoc]]
  simp only [parseUserChars, dropLit_append, parseIntChars_intToChars i hnd]
  rw [show nameLit ++ escChars nmdata ++ ['"', '\x7d']
        = nameLit ++ (escChars nmdata ++ '"' :: ['\x7d']) by simp [List.append_assoc]]
  simp [dropLit_append, takeStr_escChars]

theorem parseUser_stringifyUser (u : User) : parseUser (stringifyUser u) = some u := by
  simpa [parseUser, stringifyUser] using parseUserChars_stringifyUserChars u

theorem stringifyUser_ne_empty (u : User) : stringifyUser u ≠ "" := by
  intro hcontra
  have : stringifyUserChars u = [] := congrArg String.data hcontra
  simp [stringifyUserChars, idLit] at this

/-! ## Body shape lemmas -/

theorem field_optimizedHitBody (u : User) :
    (optimizedHitBody u).field "source" = some (Json.str "cache") := rfl

theorem field_optimizedMissBody (u : User) :
    (optimizedMissBody u).field "source" = some (Json.str "database") := rfl

theorem field_clusteredHitBody (pid : Int) (u : User) :
    (clusteredHitBody pid u).field "source" = some (Json.str "cache") := rfl

theorem field_clusteredMissBody (pid : Int) (u : User) :
    (clusteredMissBody pid u).field "source" = some (Json.str "database") := rfl

theorem field_userJson (u : User) : (userJson u).field "source" = none := rfl

/-! ## Claims -/

/-- C9: the value a later cache hit hands back equals the value originally
stored: serializing the loaded record on write and deserializing it on read
is an exact round trip.  The hypothesis confines the statement to names
without control characters — the strings on which the embedded escaping
coincides with `JSON.stringify`, and the only ones the services emit. -/
theorem json_roundtrip_exact (u : User)
    (hname : ∀ c ∈ u.name.data, 32 ≤ c.toNat) :
    parseUser (stringifyUser u) = some u :=
  parseUser_stringifyUser u

/-- Witness for C9 at the record the services actually load. -/
theorem json_roundtrip_exact_witness :
    (∀ c ∈ ("Ksusha" : String).data, 32 ≤ c.toNat) ∧
      parseUser (stringifyUser ⟨1, "Ksusha"⟩) = some ⟨1, "Ksusha"⟩ :=
  ⟨by decide, json_roundtrip_exact ⟨1, "Ksusha"⟩ (by decide)⟩

/-- C2: after a successful `get` loaded `u` into the empty store at instant
`t0` with TTL `ttl`, a second `get` at any instant `t1 < t0 + ttl` with any
second loader is answered from the cache: a 200 hit response carrying the
originally loaded `u`, the loader not invoked, and the store untouched. -/
theorem hit_before_ttl (t0 t1 ttl : Nat) (u : User) (loader2 : PromiseResult User)
    (h : t1 < t0 + ttl) :
    (runGet Store.empty t0 (.ok u) ttl).1.resp.status = 200 ∧
    (runGet (runGet Store.empty t0 (.ok u) ttl).2 t1 loader2 ttl).1
      = ⟨⟨200, optimizedHitBody u, some ccHeader⟩, false, none⟩ ∧
    (runGet (runGet Store.empty t0 (.ok u) ttl).2 t1 loader2 ttl).2
      = (runGet Store.empty t0 (.ok u) ttl).2 := by
  have hst : (runGet Store.empty t0 (.ok u) ttl).2 = ⟨some (stringifyUser u, t0 + ttl)⟩ := rfl
  have hread : storeRead ⟨some (stringifyUser u, t0 + ttl)⟩ t1 = some (stringifyUser u) := by
    simp [storeRead, h]
  refine ⟨rfl, ?_, ?_⟩ <;>
    rw [hst] <;>
    simp [runGet, hread, optimizedUserHandler, stringifyUser_ne_empty u,
      parseUser_stringifyUser, applyWrite]

/-- Witness for C2: a hit one instant before expiry returns the loaded value
without invoking the second loader. -/
theorem hit_before_ttl_witness :
    (runGet (runGet Store.empty 0 (.ok ⟨1, "Ksusha"⟩) 60).2 59 .err 60).1
      = ⟨⟨200, optimizedHitBody ⟨1, "Ksusha"⟩, some ccHeader⟩, false, none⟩ :=
  (hit_before_ttl 0 59 60 ⟨1, "Ksusha"⟩ .err (by decide)).2.1

/-- C3: a `get` issued once the entry's TTL has elapsed observes a miss,
invokes the second loader, and returns its result, rewriting the store. -/
theorem miss_after_ttl (t0 t1 ttl : Nat) (u u2 : User) (h : t0 + ttl ≤ t1) :
    (runGet (runGet Store.empty t0 (.ok u) ttl).2 t1 (.ok u2) ttl).1
      = ⟨⟨200, optimizedMissBody u2, none⟩, true, some (stringifyUser u2, ttl)⟩ ∧
    (runGet (runGet Store.empty t0 (.ok u) ttl).2 t1 (.ok u2) ttl).2
      = ⟨some (stringifyUser u2, t1 + ttl)⟩ := by
  have hst : (runGet Store.empty t0 (.ok u) ttl).2 = ⟨some (stringifyUser u, t0 + ttl)⟩ := rfl
  have hread : storeRead ⟨some (stringifyUser u, t0 + ttl)⟩ t1 = none := by
    simp [storeRead]
    omega
  refine ⟨?_, ?_⟩ <;>
    rw [hst] <;>
    simp [runGet, hread, optimizedUserHandler, missFlow, applyWrite]

/-- Witness for C3: a call one instant after expiry reloads from the origin. -/
theorem miss_after_ttl_witness :
    (runGet (runGet Store.empty 0 (.ok ⟨1, "Ksusha"⟩) 60).2 60 (.ok ⟨2, "other"⟩) 60).1
      = ⟨⟨200, optimizedMissBody ⟨2, "other"⟩, none⟩, true,
          some (stringifyUser ⟨2, "other"⟩, 60)⟩ :=
  (miss_after_ttl 0 60 60 ⟨1, "Ksusha"⟩ ⟨2, "other"⟩ (by decide)).1

/-- C5 counterexample: when the Redis read rejects, the optimized `/user`
handler answers `500 Internal Server Error` and never invokes the loader —
it does not recover the store failure by falling through to the origin, as
the claim states. -/
theorem storeReadFail_counterexample :
    (optimizedUserHandler .err (.ok ⟨1, "Ksusha"⟩) (.ok ()) 60).resp.status = 500 ∧
    (optimizedUserHandler .err (.ok ⟨1, "Ksusha"⟩) (.ok ()) 60).loaderInvoked = false :=
  ⟨rfl, rfl⟩

/-- C5 amended: if the store read fails, every cached `/user` handler
surfaces a 500 error to the caller without invoking the loader and without
writing to the store — the read failure is not treated as a miss. -/
theorem storeReadFail_is_error (loadRes : PromiseResult User)
    (writeRes : PromiseResult Unit) (ttl : Nat) (pid : Int) :
    optimizedUserHandler .err loadRes writeRes ttl
      = ⟨⟨500, errorBody, none⟩, false, none⟩ ∧
    basicUserHandler .err loadRes writeRes
      = ⟨⟨500, errorBody, none⟩, false, none⟩ ∧
    clusteredUserHandler pid .err loadRes writeRes
      = ⟨⟨500, errorBody, none⟩, false, none⟩ :=
  ⟨rfl, rfl, rfl⟩

/-- C6 counterexample: when the Redis write rejects after a successful load,
the optimized `/user` handler answers `500 Internal Server Error` with the
generic error body — the freshly loaded value is not returned, contrary to
the claim that the cache write is best-effort and invisible. -/
theorem storeWriteFail_counterexample :
    (optimizedUserHandler (.ok none) (.ok ⟨1, "Ksusha"⟩) .err 60).resp.status = 500 ∧
    (optimizedUserHandler (.ok none) (.ok ⟨1, "Ksusha"⟩) .err 60).resp.body = errorBody :=
  ⟨rfl, rfl⟩

/-- C6 amended: if the store write fails after a successful load, every
cached `/user` handler returns a 500 error response; the awaited `set` is on
the response path, so its failure is user-visible and the loaded value is
dropped. -/
theorem storeWriteFail_is_error (u : User) (ttl : Nat) (pid : Int) :
    optimizedUserHandler (.ok none) (.ok u) .err ttl
      = ⟨⟨500, errorBody, none⟩, true, none⟩ ∧
    basicUserHandler (.ok none) (.ok u) .err
      = ⟨⟨500, errorBody, none⟩, true, none⟩ ∧
    clusteredUserHandler pid (.ok none) (.ok u) .err
      = ⟨⟨500, errorBody, none⟩, true, none⟩ :=
  ⟨rfl, rfl, rfl⟩

/-- C7 counterexample: a hit response of the basic cached service
(`src/index.ts`, lines 44–50) is a 200 whose JSON body has no `source`
field at all, so not every `/user` response carries one. -/
theorem source_field_counterexample :
    (basicUserHandler (.ok (some (stringifyUser ⟨1, "Ksusha"⟩)))
        (.ok ⟨1, "Ksusha"⟩) (.ok ())).resp.status = 200 ∧
    (basicUserHandler (.ok (some (stringifyUser ⟨1, "Ksusha"⟩)))
        (.ok ⟨1, "Ksusha"⟩) (.ok ())).resp.body.field "source" = none := by
  constructor <;>
    simp [basicUserHandler, stringifyUser_ne_empty, parseUser_stringifyUser,
      field_userJson]

/-- C7 amended: the optimized and clustered `/user` handlers annotate every
200 body with `source: "cache"` on a hit and `source: "database"` on a miss,
and all three cached handlers set `Cache-Control: public, max-age=60` on
hits and no such header on misses; the basic service's bodies carry no
`source` field. -/
theorem source_and_header (s : String) (u data : User) (loadRes : PromiseResult User)
    (writeRes : PromiseResult Unit) (ttl : Nat) (pid : Int)
    (hs : s ≠ "") (hp : parseUser s = some u) :
    (optimizedUserHandler (.ok (some s)) loadRes writeRes ttl).resp.body.field "source"
      = some (Json.str "cache") ∧
    (optimizedUserHandler (.ok (some s)) loadRes writeRes ttl).resp.cacheControl
      = some ccHeader ∧
    (optimizedUserHandler (.ok none) (.ok data) (.ok ()) ttl).resp.body.field "source"
      = some (Json.str "database") ∧
    (optimizedUserHandler (.ok none) (.ok data) (.ok ()) ttl).resp.cacheControl = none ∧
    (clusteredUserHandler pid (.ok (some s)) loadRes writeRes).resp.body.field "source"
      = some (Json.str "cache") ∧
    (clusteredUserHandler pid (.ok (some s)) loadRes writeRes).resp.cacheControl
      = some ccHeader ∧
    (clusteredUserHandler pid (.ok none) (.ok data) (.ok ())).resp.body.field "source"
      = some (Json.str "database") ∧
    (clusteredUserHandler pid (.ok none) (.ok data) (.ok ())).resp.cacheControl = none ∧
    (basicUserHandler (.ok (some s)) loadRes writeRes).resp.cacheControl = some ccHeader ∧
    (basicUserHandler (.ok (some s)) loadRes writeRes).resp.body.field "source" = none ∧
    (basicUserHandler (.ok none) (.ok data) (.ok ())).resp.body.field "source" = none ∧
    (basicUserHandler (.ok none) (.ok data) (.ok ())).resp.cacheControl = none := by
  refine ⟨?_, ?_, ?_, ?_, ?_, ?_, ?_, ?_, ?_, ?_, ?_, ?_⟩ <;>
    simp [optimizedUserHandler, clusteredUserHandler, basicUserHandler, missFlow,
      hs, hp, field_optimizedHitBody, field_optimizedMissBody,
      field_clusteredHitBody, field_clusteredMissBody, field_userJson]

/-- Witness for C7 amended at a concrete cached string and record. -/
theorem source_and_header_witness :
    (optimizedUserHandler (.ok (some (stringifyUser ⟨1, "Ksusha"⟩)))
        (.ok ⟨1, "Ksusha"⟩) (.ok ()) 60).resp.body.field "source"
      = some (Json.str "cache") :=
  (source_and_header (stringifyUser ⟨1, "Ksusha"⟩) ⟨1, "Ksusha"⟩ ⟨1, "Ksusha"⟩
    (.ok ⟨1, "Ksusha"⟩) (.ok ()) 60 7 (by decide) (by decide)).1

/-- C8: the accessor's only store mutation is the `set` of a successful miss
resolution: a hit (a truthy unexpired string) leaves the store untouched —
no TTL refresh — and in every run the store is either unchanged or holds
exactly the freshly loaded value with a fresh absolute expiry; no operation
deletes an entry. -/
theorem store_frame (st : Store) (now ttl : Nat) (loadRes : PromiseResult User) :
    (∀ s, storeRead st now = some s → s ≠ "" →
        (runGet st now loadRes ttl).2 = st ∧
        (runGet st now loadRes ttl).1.written = none) ∧
    ((runGet st now loadRes ttl).2 = st ∨
      ∃ u, loadRes = PromiseResult.ok u ∧
        (runGet st now loadRes ttl).2 = ⟨some (stringifyUser u, now + ttl)⟩ ∧
        (runGet st now loadRes ttl).1.loaderInvoked = true) ∧
    (st.entry ≠ none → (runGet st now loadRes ttl).2.entry ≠ none) := by
  rcases hr : storeRead st now with _ | s
  · cases loadRes with
    | ok u =>
      refine ⟨fun s hs => by simp [hr] at hs, Or.inr ⟨u, rfl, ?_, ?_⟩, ?_⟩ <;>
        simp [runGet, hr, optimizedUserHandler, missFlow, applyWrite]
    | err =>
      refine ⟨fun s hs => by simp [hr] at hs, Or.inl ?_, ?_⟩ <;>
        simp [runGet, hr, optimizedUserHandler, missFlow, applyWrite]
  · by_cases hs : s = ""
    · subst hs
      cases loadRes with
      | ok u =>
        refine ⟨fun s hsome hne => by simp [hr] at hsome; simp [hsome] at hne,
          Or.inr ⟨u, rfl, ?_, ?_⟩, ?_⟩ <;>
          simp [runGet, hr, optimizedUserHandler, missFlow, applyWrite]
      | err =>
        refine ⟨fun s hsome hne => by simp [hr] at hsome; simp [hsome] at hne,
          Or.inl ?_, ?_⟩ <;>
          simp [runGet, hr, optimizedUserHandler, missFlow, applyWrite]
    · have hunch : (runGet st now loadRes ttl).2 = st ∧
          (runGet st now loadRes ttl).1.written = none := by
        cases hp : parseUser s with
        | some u => constructor <;> simp [runGet, hr, optimizedUserHandler, hs, hp, applyWrite]
        | none => constructor <;> simp [runGet, hr, optimizedUserHandler, hs, hp, applyWrite]
      exact ⟨fun _ _ _ => hunch, Or.inl hunch.1, fun hne => by rw [hunch.1]; exact hne⟩

/-- Witness for C8: a hit leaves the store exactly as it was. -/
theorem store_frame_witness :
    (runGet ⟨some (stringifyUser ⟨1, "Ksusha"⟩, 60)⟩ 10 .err 60).2
      = ⟨some (stringifyUser ⟨1, "Ksusha"⟩, 60)⟩ :=
  ((store_frame ⟨some (stringifyUser ⟨1, "Ksusha"⟩, 60)⟩ 10 60 .err).1
    (stringifyUser ⟨1, "Ksusha"⟩) (by decide) (by decide)).1

/-- C10: the cluster primary reacts to every worker `exit` event by forking
exactly one replacement, so the worker count is unchanged across a crash,
and the handler's behaviour is identical for every exit code and signal. -/
theorem worker_refork (s : ClusterState) (dead : Nat) (code code' : Int)
    (signal signal' : Option String) (h : dead ∈ s.workers) :
    (exitStep s dead code signal).workers.length = s.workers.length ∧
    (onExit s dead code signal).workers.length = s.workers.length + 1 ∧
    exitStep s dead code signal = exitStep s dead code' signal' := by
  refine ⟨?_, ?_, rfl⟩
  · have hlen := List.length_erase_of_mem h
    have hpos : 0 < s.workers.length := List.length_pos.2 (List.ne_nil_of_mem h)
    simp [exitStep, onExit, forkWorker, hlen]
    omega
  · simp [onExit, forkWorker]

/-- Witness for C10 at a concrete pool: the crash of worker 5 with a nonzero
exit code leaves the pool size at 2. -/
theorem worker_refork_witness :
    (exitStep ⟨[5, 6], 7⟩ 5 1 (some "SIGKILL")).workers.length = 2 :=
  (worker_refork ⟨[5, 6], 7⟩ 5 1 0 (some "SIGKILL") none (by decide)).1

/-! ## Concurrent-run invariants -/

theorem mem_of_getElem {α : Type} {l : List α} {i : Nat} {x : α} (h : l[i]? = some x) :
    x ∈ l := by
  have hi : i < l.length := by
    by_contra hc
    rw [List.getElem?_eq_none (by omega)] at h
    cases h
  rw [List.getElem?_eq_getElem hi] at h
  injection h with h
  exact h ▸ l.getElem_mem hi

theorem countP_set_of_get {α : Type} {p : α → Bool} {l : List α} {i : Nat} {x a : α}
    (h : l[i]? = some x) :
    (l.set i a).countP p + (if p x then 1 else 0)
      = l.countP p + (if p a then 1 else 0) := by
  induction l generalizing i with
  | nil => cases h
  | cons b bs ih =>
    cases i with
    | zero =>
      rw [List.getElem?_cons_zero] at h
      injection h with h
      subst h
      simp only [List.set, List.countP_cons]
      omega
    | succ i =>
      rw [List.getElem?_cons_succ] at h
      have := ih h
      simp only [List.set, List.countP_cons]
      omega

theorem countP_isReadyB_replicate (n : Nat) :
    (List.replicate n RPhase.ready).countP isReadyB = n := by
  induction n with
  | zero => rfl
  | succ n ih => simp [List.replicate, List.countP_cons, ih, isReadyB]

theorem CInv_init (L : User) (now ttl n : Nat) :
    CInv L now ttl n (cinit Store.empty n) := by
  refine ⟨by simp [cinit], ?_, ?_, Or.inl rfl, ?_⟩
  · simp [cinit, countP_isReadyB_replicate]
  · exact fun _ => ⟨rfl, fun r hr => List.eq_of_mem_replicate hr⟩
  · intro r hr
    rw [List.eq_of_mem_replicate hr]
    trivial

theorem CInv_step {L : User} {now ttl n : Nat} {s : CState}
    (inv : CInv L now ttl n s) (i : Nat) :
    CInv L now ttl n (cstep now ttl (.ok L) s i) := by
  obtain ⟨⟨se⟩, scalls, sreqs⟩ := s
  obtain ⟨hlen, hbound, hzero, hstore, hphase⟩ := inv
  simp only at hlen hbound hzero hstore hphase
  cases hi : sreqs[i]? with
  | none =>
    have hs : cstep now ttl (.ok L) ⟨⟨se⟩, scalls, sreqs⟩ i = ⟨⟨se⟩, scalls, sreqs⟩ := by
      simp [cstep, hi]
    rw [hs]
    exact ⟨hlen, hbound, hzero, hstore, hphase⟩
  | some r =>
    have hmem : r ∈ sreqs := mem_of_getElem hi
    cases r with
    | ready =>
      rcases hstore with hnone | hsome
      · subst hnone
        have hs : cstep now ttl (.ok L) ⟨⟨none⟩, scalls, sreqs⟩ i
            = ⟨⟨none⟩, scalls + 1, sreqs.set i (.loaded L)⟩ := by
          simp [cstep, hi, storeRead]
        rw [hs]
        have hcnt := countP_set_of_get (p := isReadyB) (a := RPhase.loaded L) hi
        simp [isReadyB] at hcnt
        refine ⟨?_, ?_, ?_, Or.inl rfl, ?_⟩
        · simpa using hlen
        · show scalls + 1 + (sreqs.set i (RPhase.loaded L)).countP isReadyB ≤ n
          omega
        · intro hc
          exact absurd hc (Nat.succ_ne_zero scalls)
        · intro r hr
          rcases List.mem_or_eq_of_mem_set hr with hin | heq
          · exact hphase r hin
          · subst heq
            exact rfl
      · subst hsome
        by_cases hexp : now < now + ttl
        · have hread : storeRead ⟨some (stringifyUser L, now + ttl)⟩ now
              = some (stringifyUser L) := by
            simp [storeRead, hexp]
          have hs : cstep now ttl (.ok L) ⟨⟨some (stringifyUser L, now + ttl)⟩, scalls, sreqs⟩ i
              = ⟨⟨some (stringifyUser L, now + ttl)⟩, scalls,
                  sreqs.set i (.done (.fromCache L))⟩ := by
            simp [cstep, hi, hread, stringifyUser_ne_empty L, parseUser_stringifyUser]
          rw [hs]
          have hcnt := countP_set_of_get (p := isReadyB)
            (a := RPhase.done (.fromCache L)) hi
          simp [isReadyB] at hcnt
          refine ⟨?_, ?_, ?_, Or.inr rfl, ?_⟩
          · simpa using hlen
          · show scalls + (sreqs.set i (RPhase.done (.fromCache L))).countP isReadyB ≤ n
            omega
          · intro hc
            have h1 := (hzero hc).1
            cases h1
          · intro r hr
            rcases List.mem_or_eq_of_mem_set hr with hin | heq
            · exact hphase r hin
            · subst heq
              exact rfl
        · have hread : storeRead ⟨some (stringifyUser L, now + ttl)⟩ now = none := by
            simp [storeRead, hexp]
          have hs : cstep now ttl (.ok L) ⟨⟨some (stringifyUser L, now + ttl)⟩, scalls, sreqs⟩ i
              = ⟨⟨some (stringifyUser L, now + ttl)⟩, scalls + 1,
                  sreqs.set i (.loaded L)⟩ := by
            simp [cstep, hi, hread]
          rw [hs]
          have hcnt := countP_set_of_get (p := isReadyB) (a := RPhase.loaded L) hi
          simp [isReadyB] at hcnt
          refine ⟨?_, ?_, ?_, Or.inr rfl, ?_⟩
          · simpa using hlen
          · show scalls + 1 + (sreqs.set i (RPhase.loaded L)).countP isReadyB ≤ n
            omega
          · intro hc
            exact absurd hc (Nat.succ_ne_zero scalls)
          · intro r hr
            rcases List.mem_or_eq_of_mem_set hr with hin | heq
            · exact hphase r hin
            · subst heq
              exact rfl
    | loaded u =>
      have hu : u = L := hphase _ hmem
      subst hu
      have hs : cstep now ttl (.ok u) ⟨⟨se⟩, scalls, sreqs⟩ i
          = ⟨⟨some (stringifyUser u, now + ttl)⟩, scalls,
              sreqs.set i (.done (.fromDb u))⟩ := by
        simp [cstep, hi]
      rw [hs]
      have hcnt := countP_set_of_get (p := isReadyB) (a := RPhase.done (.fromDb u)) hi
      simp [isReadyB] at hcnt
      refine ⟨?_, ?_, ?_, Or.inr rfl, ?_⟩
      · simpa using hlen
      · show scalls + (sreqs.set i (RPhase.done (.fromDb u))).countP isReadyB ≤ n
        omega
      · intro hc
        have h1 := (hzero hc).2 _ hmem
        cases h1
      · intro r hr
        rcases List.mem_or_eq_of_mem_set hr with hin | heq
        · exact hphase r hin
        · subst heq
          exact rfl
    | done o =>
      have hs : cstep now ttl (.ok L) ⟨⟨se⟩, scalls, sreqs⟩ i = ⟨⟨se⟩, scalls, sreqs⟩ := by
        simp [cstep, hi]
      rw [hs]
      exact ⟨hlen, hbound, hzero, hstore, hphase⟩

theorem CInv_run {L : User} {now ttl n : Nat} {s : CState}
    (inv : CInv L now ttl n s) (sched : List Nat) :
    CInv L now ttl n (crun now ttl (.ok L) s sched) := by
  induction sched generalizing s with
  | nil => exact inv
  | cons i rest ih => exact ih (CInv_step inv i)

theorem CFailInv_step {now ttl : Nat} {s : CState} (h : CFailInv s) (i : Nat) :
    CFailInv (cstep now ttl .err s i) := by
  obtain ⟨⟨se⟩, scalls, sreqs⟩ := s
  obtain ⟨hst, hph⟩ := h
  simp only at hst hph
  subst hst
  cases hi : sreqs[i]? with
  | none =>
    have hs : cstep now ttl .err ⟨⟨none⟩, scalls, sreqs⟩ i = ⟨⟨none⟩, scalls, sreqs⟩ := by
      simp [cstep, hi]
    rw [hs]
    exact ⟨rfl, hph⟩
  | some r =>
    have hmem : r ∈ sreqs := mem_of_getElem hi
    cases r with
    | ready =>
      have hs : cstep now ttl .err ⟨⟨none⟩, scalls, sreqs⟩ i
          = ⟨⟨none⟩, scalls + 1, sreqs.set i (.done .errResp)⟩ := by
        simp [cstep, hi, storeRead]
      rw [hs]
      refine ⟨rfl, ?_⟩
      intro r hr
      rcases List.mem_or_eq_of_mem_set hr with hin | heq
      · exact hph r hin
      · exact Or.inr heq
    | loaded u =>
      rcases hph _ hmem with h1 | h1 <;> cases h1
    | done o =>
      have hs : cstep now ttl .err ⟨⟨none⟩, scalls, sreqs⟩ i = ⟨⟨none⟩, scalls, sreqs⟩ := by
        simp [cstep, hi]
      rw [hs]
      exact ⟨rfl, hph⟩

theorem CFailInv_run {now ttl : Nat} {s : CState} (h : CFailInv s) (sched : List Nat) :
    CFailInv (crun now ttl .err s sched) := by
  induction sched generalizing s with
  | nil => exact h
  | cons i rest ih => exact ih (CFailInv_step h i)

/-- C1 counterexample: two concurrent `/user` misses whose event-loop
interleaving is read–read–load–load invoke the loader twice, not exactly
once — the code has no in-flight deduplication, so the claim fails at
`N = 2`. -/
theorem concurrent_dedup_counterexample :
    (crun 0 60 (.ok ⟨1, "Ksusha"⟩) (cinit Store.empty 2) [0, 1, 0, 1]).calls = 2 ∧
    (crun 0 60 (.ok ⟨1, "Ksusha"⟩) (cinit Store.empty 2) [0, 1, 0, 1]).reqs
      = [RPhase.done (.fromDb ⟨1, "Ksusha"⟩), RPhase.done (.fromDb ⟨1, "Ksusha"⟩)] ∧
    (2 : Nat) ≠ 1 := by
  refine ⟨rfl, rfl, by decide⟩

/-- C1 amended: `N` concurrent `get` calls issued while no cached value
exists invoke the loader at least once and at most `N` times — one per
caller whose cache read precedes every cache write, since the source has no
single-flight guard — and every caller that completes receives the loader's
value (from the database or from the cache another caller populated). -/
theorem concurrent_miss_load_bounds (L : User) (n now ttl : Nat) (sched : List Nat)
    (hn : 0 < n) :
    (crun now ttl (.ok L) (cinit Store.empty n) sched).calls ≤ n ∧
    ((∀ r ∈ (crun now ttl (.ok L) (cinit Store.empty n) sched).reqs, isDoneB r = true) →
      1 ≤ (crun now ttl (.ok L) (cinit Store.empty n) sched).calls) ∧
    (∀ r ∈ (crun now ttl (.ok L) (cinit Store.empty n) sched).reqs, ∀ o, r = RPhase.done o →
      o = ROutcome.fromCache L ∨ o = ROutcome.fromDb L) := by
  have inv := CInv_run (CInv_init L now ttl n) sched
  obtain ⟨hlen, hbound, hzero, hstore, hphase⟩ := inv
  refine ⟨by omega, ?_, ?_⟩
  · intro hdone
    by_contra hlt
    have hc0 : (crun now ttl (.ok L) (cinit Store.empty n) sched).calls = 0 := by omega
    have hall := (hzero hc0).2
    have hne : (crun now ttl (.ok L) (cinit Store.empty n) sched).reqs ≠ [] := by
      intro hnil
      rw [hnil] at hlen
      simp at hlen
      omega
    obtain ⟨r, hr⟩ := List.exists_mem_of_ne_nil _ hne
    have h1 := hdone r hr
    have h2 := hall r hr
    rw [h2] at h1
    cases h1
  · intro r hr o ho
    subst ho
    have := hphase _ hr
    cases o with
    | fromCache u => exact Or.inl (by rw [this])
    | fromDb u => exact Or.inr (by rw [this])
    | errResp => cases this

/-- Witness for C1 amended at the counterexample's run: two requests, two
loader invocations, within the bounds `1 ≤ 2 ≤ 2`. -/
theorem concurrent_miss_load_bounds_witness :
    (crun 0 60 (.ok ⟨1, "Ksusha"⟩) (cinit Store.empty 2) [0, 1, 0, 1]).calls ≤ 2 :=
  (concurrent_miss_load_bounds ⟨1, "Ksusha"⟩ 2 0 60 [0, 1, 0, 1] (by decide)).1

/-- C4: if the loader fails during a miss, the caller gets the failure as a
500 response, nothing is written to the store, a following `get` invokes the
loader again and returns its fresh result, and in any interleaving of
concurrent requests with a failing loader the store stays empty and every
settled request saw the failure. -/
theorem loader_failure_isolation :
    (∀ st now ttl, storeRead st now = none →
        (runGet st now .err ttl).1.resp.status = 500 ∧
        (runGet st now .err ttl).1.loaderInvoked = true ∧
        (runGet st now .err ttl).1.written = none ∧
        (runGet st now .err ttl).2 = st) ∧
    (∀ now now' ttl (u3 : User),
        (runGet (runGet Store.empty now .err ttl).2 now' (.ok u3) ttl).1
          = ⟨⟨200, optimizedMissBody u3, none⟩, true, some (stringifyUser u3, ttl)⟩) ∧
    (∀ n now ttl (sched : List Nat),
        (crun now ttl .err (cinit Store.empty n) sched).store.entry = none ∧
        ∀ r ∈ (crun now ttl .err (cinit Store.empty n) sched).reqs,
          r = RPhase.ready ∨ r = RPhase.done .errResp) := by
  refine ⟨?_, ?_, ?_⟩
  · intro st now ttl hread
    refine ⟨?_, ?_, ?_, ?_⟩ <;>
      simp [runGet, hread, optimizedUserHandler, missFlow, applyWrite]
  · intro now now' ttl u3
    have hst : (runGet Store.empty now .err ttl).2 = Store.empty := rfl
    rw [hst]
    have hread : storeRead Store.empty now' = none := rfl
    simp [runGet, hread, optimizedUserHandler, missFlow]
  · intro n now ttl sched
    have hinit : CFailInv (cinit Store.empty n) := by
      refine ⟨rfl, fun r hr => Or.inl (List.eq_of_mem_replicate hr)⟩
    exact CFailInv_run hinit sched

/-- Witness for C4 at a concrete state: a failing load from the empty store
yields a 500 and leaves the store empty. -/
theorem loader_failure_isolation_witness :
    (runGet Store.empty 0 .err 60).1.resp.status = 500 :=
  ((loader_failure_isolation).1 Store.empty 0 60 rfl).1

end ScalableApi
